import Mathlib

/-!
Verification development for the mml2musicxml compiler
(file src/mml2musicxml.py of the repository).

The compiler is a stateful tree walking interpreter over parsed MML
commands.  We embed its data model and command handlers as executable
Lean definitions and prove properties about them.  Machine integers of
the source are embedded as Int and Nat; Python floor division and
modulo on a positive divisor coincide with Int division and emod in
Lean, which we checked on negative inputs.  Python string upper casing
and the endswith test are embedded on the list of characters; all
names in the source grammar are ASCII, where both agree with the
character wise operations.
-/

namespace Mml2MusicXml

/-- Python str.upper on the ASCII strings produced by the grammar. -/
def pyUpper (s : String) : String := ⟨s.data.map Char.toUpper⟩

/-- Python s.endswith(suffix). -/
def pyEndsWith (s suffix : String) : Bool := suffix.data.isSuffixOf s.data

/-- Number of channels (variable channels = 16 in the source). -/
def channels : Nat := 16

/-- Default key, field initial key of the Compiler. -/
def initialKey : Int := 0

/-- Default length, field initial length of the Compiler. -/
def initialLength : Nat := 4

/-- Default octave, field initial octave of the Compiler. -/
def initialOctave : Int := 4

/-- Default tempo, field initial tempo of the Compiler. -/
def initialTempo : Nat := 120

/-- Pitch: the class Pitch holds a step letter, an alteration and an
octave.  The validated step is a one character upper case string in
C, D, E, F, G, A, B. -/
structure Pitch where
  step : String
  alter : Int
  octave : Int
deriving DecidableEq

/-- Errors raised by the compiler.  typeErr stands for the Python
TypeError raised when the private channel initialisation method is
invoked without its required positional argument, internalErr for the
InternalError of the source, and outOfFuel is an artefact of the fuel
bounded embedding of the unbounded recursion of the interpreter. -/
inductive Err where
  | undefinedMacroErr (name : String)
  | duplicateMacroErr (name : String)
  | internalErr
  | typeErr
  | outOfFuel
deriving DecidableEq

/-- Step setter of Pitch: upper cases the string and validates it,
raising InternalError on an illegal step string. -/
def Pitch.withStep (p : Pitch) (s : String) : Except Err Pitch :=
  let su := pyUpper s
  if su = ("C") ∨ su = ("D") ∨ su = ("E") ∨ su = ("F") ∨ su = ("G") ∨
      su = ("A") ∨ su = ("B") then
    .ok { p with step := su }
  else
    .error .internalErr

/-- Alter setter of Pitch: stores alter mod 12, then subtracts 12 when
the argument was negative. -/
def Pitch.withAlter (p : Pitch) (a : Int) : Pitch :=
  let x := a % 12
  { p with alter := if a < 0 then x - 12 else x }

/-- Octave setter of Pitch: clamps the octave into the range from
minus one to nine. -/
def Pitch.withOctave (p : Pitch) (o : Int) : Pitch :=
  { p with octave := min (max o (-1)) 9 }

/-- Value getter of Pitch: step base offset plus alteration plus
twelve per octave above minus one, clamped into 0 to 127.  The index
into the offset table is ord of the validated step letter minus 0x41. -/
def Pitch.value (p : Pitch) : Int :=
  let v := [9, 11, 0, 2, 4, 5, 7].getD ((p.step.data.headD 'A').toNat - 0x41) 0
    + p.alter + (p.octave + 1) * 12
  min (max v 0) 127

/-- Value setter of Pitch (also the constructor path Pitch(value)):
derives step and alter from twelve entry tables indexed by value mod
12 and the octave from floor division by 12 minus one.  The three
assignments go through the setters: the table entries pass the step
and alter setters unchanged (upper case valid steps, alter 0 or 1),
and the octave assignment is clamped by the octave setter. -/
def Pitch.fromValue (v : Int) : Pitch :=
  let i := (v % 12).toNat
  { step := [("C"), ("C"), ("D"), ("D"), ("E"), ("F"),
             ("F"), ("G"), ("G"), ("A"), ("A"), ("B")].getD i ("C"),
    alter := [0, 1, 0, 1, 0, 0, 1, 0, 1, 0, 1, 0].getD i 0,
    octave := min (max (v / 12 - 1) (-1)) 9 }

/-- Child subtrees of a note command, as scanned by the for loop of
note command over tree.children. -/
inductive NoteAttr where
  | rest
  | text (s : String)
  | step (s : String)
  | accidental (c : Char)
  | pitch (v : Nat)
  | length (l : Nat)
  | dot
  | breath
deriving DecidableEq

/-- Local variables accumulated by the scanning loop of note command. -/
structure NoteScan where
  rest : Bool
  text : String
  step : String
  alter : Int
  pitch : Pitch
  length : Nat
  dot : Nat
  breath : Bool
deriving DecidableEq

/-- The scanning loop of note command: fold over the child subtrees,
starting from the initial local variables (length defaults to the
channel length, pitch to Pitch(0)). -/
def scanAttrs (defaultLength : Nat) (attrs : List NoteAttr) : NoteScan :=
  attrs.foldl (fun s a =>
    match a with
    | .rest => { s with rest := true }
    | .text t => { s with text := t }
    | .step c => { s with step := c }
    | .accidental c => { s with alter := if c = '-' then -1 else 1 }
    | .pitch v => { s with pitch := Pitch.fromValue (Int.ofNat v) }
    | .length l => { s with length := l }
    | .dot => { s with dot := s.dot + 1 }
    | .breath => { s with breath := true })
    { rest := false, text := "", step := "", alter := 0,
      pitch := Pitch.fromValue 0, length := defaultLength, dot := 0,
      breath := false }

/-- Parsed MML commands, one constructor per handler of the Compiler. -/
inductive Command where
  | callCmd (name : String)
  | channelCmd (c : Nat)
  | defineCmd (name : String) (body : List Command)
  | noteCmd (attrs : List NoteAttr)
  | keyCmd (k : Int)
  | lengthCmd (l : Nat)
  | loopCmd (body : List Command) (count : Nat)
  | octaveCmd (o : Int)
  | octaveUpCmd
  | octaveDownCmd
  | octaveReverseCmd
  | tempoCmd (t : Nat)
  | unsupportedCmd

/-- Lookup in the macro table (the Python dict keyed by normalised
names, embedded as an association list; the duplicate check of the
define handler keeps the keys distinct). -/
def macroGet : List (String × List Command) → String → Option (List Command)
  | [], _ => none
  | (k, v) :: rest, n => if k = n then some v else macroGet rest n

/-- One emitted measure.  Every note or rest command appends exactly
one measure holding the attributes element (divisions 1, fifths 0,
beats, beat type, clef G2, sound tempo) and one note.  The constant
subelements are not modelled as fields.  A non rest note holds a pitch
element, a notations element with an articulations child, an optional
lyric (whose text the real system passes through the external okaka
converter, not modelled) and optional breath mark and tie elements;
tie elements are modelled by the two flags. -/
structure Measure where
  beats : Nat
  beatType : Nat
  soundTempo : Nat
  isRest : Bool
  pitchElem : Option (String × Int × Int)
  lyricText : Option String
  breathMark : Bool
  tieStart : Bool
  tieStop : Bool
deriving DecidableEq

/-- Placeholder measure used as the default of list lookups. -/
def emptyMeasure : Measure :=
  { beats := 0, beatType := 0, soundTempo := 0, isRest := true,
    pitchElem := none, lyricText := none, breathMark := false,
    tieStart := false, tieStop := false }

/-- The measure emitted for a rest command: time signature from the
dot count and the effective length, the channel tempo, a rest note. -/
def restMeasure (s : NoteScan) (tempo : Nat) : Measure :=
  { beats := 2 * 2 ^ s.dot - 1, beatType := s.length * 2 ^ s.dot,
    soundTempo := tempo, isRest := true, pitchElem := none,
    lyricText := none, breathMark := false, tieStart := false,
    tieStop := false }

/-- The measure emitted for a non rest note: time signature from the
dot count and the effective length, the channel tempo, the resolved
pitch triple, the optional lyric, the optional breath mark, and the
tie stop element when the tie was inferred. -/
def noteMeasure (s : NoteScan) (tempo : Nat) (p2 : Pitch) (tie : Bool) : Measure :=
  { beats := 2 * 2 ^ s.dot - 1, beatType := s.length * 2 ^ s.dot,
    soundTempo := tempo, isRest := false,
    pitchElem := some (p2.step, p2.alter, p2.octave),
    lyricText := if s.text ≠ "" then some s.text else none,
    breathMark := s.breath, tieStart := false, tieStop := tie }

/-- Update of the element at an index of a list, identity out of
range. -/
def modifyAt {α : Type} (l : List α) (i : Nat) (f : α → α) : List α :=
  match l, i with
  | [], _ => []
  | m :: rest, 0 => f m :: rest
  | m :: rest, j + 1 => m :: modifyAt rest j f

/-- Adding the tie element with type start to the notations of a
measure. -/
def markTieStart (m : Measure) : Measure := { m with tieStart := true }

/-- Compiler state: the fields of the Compiler object.  The previous
notations reference of the source is a reference to the notations
element of an earlier emitted note; we model it as the pair of the
channel and the index of that measure inside the part of the channel.
The global key and global tempo attributes are created dynamically on
first assignment, hence the Option. -/
structure CState where
  scores : List (Option (List Measure))
  channel : Nat
  isLocal : Bool
  key : Int
  length : Nat
  octave : Int
  tempo : Nat
  macros : List (String × List Command)
  octaveReverse : Bool
  previousNotations : Option (Nat × Nat)
  previousPitch : Option Pitch
  previousText : Option String
  globalKey : Option Int
  globalTempo : Option Nat

/-- The private channel initialisation method: sets the active channel
and the local flag, attaches a fresh empty score and part for that
channel, and resets key, length, octave and tempo to the process
defaults. -/
def initChannel (st : CState) (channel : Nat) (isLocal : Bool) : CState :=
  { st with channel := channel, isLocal := isLocal,
            scores := st.scores.set channel (some []),
            key := initialKey, length := initialLength,
            octave := initialOctave, tempo := initialTempo }

/-- State of a freshly constructed Compiler: all scores absent, empty
macro table, octave reverse off, tie tracking empty, then the channel
initialisation for channel 0 with local false. -/
def initState : CState :=
  initChannel
    { scores := List.replicate channels none, channel := 0, isLocal := false,
      key := initialKey, length := initialLength, octave := initialOctave,
      tempo := initialTempo, macros := [], octaveReverse := false,
      previousNotations := none, previousPitch := none, previousText := none,
      globalKey := none, globalTempo := none } 0 false

/-- Mutation of the referenced previous notations element: adds the
tie element with type start to the measure the reference points at.
In the source this is a direct element mutation through the stored
reference; the out of range guards are for totality only, references
created by the interpreter always point at an existing measure. -/
def setTieStart (scores : List (Option (List Measure))) :
    Option (Nat × Nat) → List (Option (List Measure))
  | none => scores
  | some (ch, idx) =>
    match scores.getD ch none with
    | none => scores
    | some part => scores.set ch (some (modifyAt part idx markTieStart))

/-- Tie inference of the note command (lines 309 to 313 of the
source): nested truthiness tests on the previous notations element,
the previous pitch and the previous text, then the endswith test of
the previous text against the current text. -/
def tieFlag (st : CState) (text : String) : Bool :=
  if st.previousNotations.isSome then
    if st.previousPitch.isSome then
      match st.previousText with
      | some t => if t ≠ "" then pyEndsWith t text else false
      | none => false
    else false
  else false

/-- Pitch resolution of a non rest note (lines 298 to 303 of the
source): when a step letter was scanned, push step, alter and the
channel octave through the Pitch setters; then add the channel key to
the numeric value, re-deriving the triple through the value setter. -/
def pitchProcess (s : NoteScan) (st : CState) : Except Err Pitch :=
  match (if s.step ≠ "" then
      match s.pitch.withStep s.step with
      | .ok p => .ok ((p.withAlter s.alter).withOctave st.octave)
      | .error e => .error e
    else .ok s.pitch : Except Err Pitch) with
  | .error e => .error e
  | .ok p1 => .ok (Pitch.fromValue (p1.value + st.key))

/-- The note command handler.  Scans the child subtrees, resolves the
pitch and the tie for a non rest note, computes the time signature,
appends one measure to the part of the active channel, and updates
the tie tracking fields.  The truthiness tests of the source: a non
None previous notations element always holds the articulations child
and is therefore truthy, a Pitch object is always truthy, and the
previous text is truthy iff it is neither None nor empty. -/
def noteCommand (attrs : List NoteAttr) (st : CState) : Except Err CState :=
  let s := scanAttrs st.length attrs
  if s.rest then
    match st.scores.getD st.channel none with
    | none => .error .typeErr
    | some part =>
      let m : Measure := restMeasure s st.tempo
      .ok { st with
            scores := st.scores.set st.channel (some (part ++ [m])),
            previousNotations := none,
            previousPitch := some s.pitch,
            previousText := none }
  else
    match pitchProcess s st with
    | .error e => .error e
    | .ok p2 =>
      let tie : Bool := tieFlag st s.text
      match st.scores.getD st.channel none with
      | none => .error .typeErr
      | some part =>
        let m : Measure := noteMeasure s st.tempo p2 tie
        let scoresA := st.scores.set st.channel (some (part ++ [m]))
        let scoresB :=
          if tie then setTieStart scoresA st.previousNotations else scoresA
        .ok { st with
              scores := scoresB,
              previousPitch := some p2,
              previousText := some s.text,
              previousNotations := some (st.channel, part.length) }

/-- Sequencing of a content subtree: visit the commands in order,
propagating the first error. -/
def runList (rec : Command → CState → Except Err CState) :
    List Command → CState → Except Err CState
  | [], st => .ok st
  | c :: cs, st =>
    match rec c st with
    | .ok st1 => runList rec cs st1
    | .error e => .error e

/-- The loop of the loop command handler: count iterations, each
capturing the octave before the body and restoring it afterwards. -/
def runLoop (rec : Command → CState → Except Err CState)
    (body : List Command) : Nat → CState → Except Err CState
  | 0, st => .ok st
  | n + 1, st =>
    match runList rec body st with
    | .ok st1 => runLoop rec body n { st1 with octave := st.octave }
    | .error e => .error e

/-- The command dispatch of the Compiler.  The fuel argument bounds
the macro expansion depth (the source recursion is unbounded and a
self referential macro does not terminate); one unit of fuel is
consumed per dispatched command.  The channel command stores the
channel and the local flag and then invokes the private channel
initialisation method without its required positional argument, which
raises TypeError in Python; we embed that call as the typeErr error. -/
def interpCommand : Nat → Command → CState → Except Err CState
  | 0, _, _ => .error .outOfFuel
  | fuel + 1, c, st =>
    match c with
    | .callCmd name =>
      match macroGet st.macros (pyUpper name) with
      | none => .error (.undefinedMacroErr name)
      | some body =>
        match runList (fun c2 s2 => interpCommand fuel c2 s2) body st with
        | .ok st1 => .ok { st1 with length := st.length, octave := st.octave }
        | .error e => .error e
    | .channelCmd _ => .error .typeErr
    | .defineCmd name body =>
      if (macroGet st.macros (pyUpper name)).isSome then
        .error (.duplicateMacroErr name)
      else
        .ok { st with macros := st.macros ++ [(pyUpper name, body)] }
    | .noteCmd attrs => noteCommand attrs st
    | .keyCmd k =>
      let st1 := { st with key := k }
      if st1.isLocal then .ok st1 else .ok { st1 with globalKey := some st1.key }
    | .lengthCmd l => .ok { st with length := l }
    | .loopCmd body n =>
      runLoop (fun c2 s2 => interpCommand fuel c2 s2) body n st
    | .octaveCmd o => .ok { st with octave := o }
    | .octaveUpCmd =>
      if st.octaveReverse then .ok { st with octave := st.octave - 1 }
      else .ok { st with octave := st.octave + 1 }
    | .octaveDownCmd =>
      if st.octaveReverse then .ok { st with octave := st.octave + 1 }
      else .ok { st with octave := st.octave - 1 }
    | .octaveReverseCmd => .ok { st with octaveReverse := true }
    | .tempoCmd t =>
      let st1 := { st with tempo := t }
      if st1.isLocal then .ok st1
      else .ok { st1 with globalTempo := some st1.tempo }
    | .unsupportedCmd => .ok st

/-- Interpretation of a content subtree at a given fuel. -/
def interpContent (fuel : Nat) (cs : List Command) (st : CState) :
    Except Err CState :=
  runList (fun c s => interpCommand fuel c s) cs st

/-- The part of a channel after a run. -/
def partAt (st : CState) (ch : Nat) : Option (List Measure) :=
  st.scores.getD ch none

/-- The last emitted measure of a channel. -/
def lastMeasure (st : CState) (ch : Nat) : Option Measure :=
  match partAt st ch with
  | some part => part.getLast?
  | none => none

/-- Octave of the resulting state of a run, none on error. -/
def octaveAfter (r : Except Err CState) : Option Int :=
  match r with
  | .ok st => some st.octave
  | .error _ => none

/-- Previous pitch field of the resulting state of a run. -/
def prevPitchAfter (r : Except Err CState) : Option Pitch :=
  match r with
  | .ok st => st.previousPitch
  | .error _ => none

/-- Tie flags (tie start, tie stop) of the measures of a channel after
a run. -/
def tiePairs (r : Except Err CState) (ch : Nat) : Option (List (Bool × Bool)) :=
  match r with
  | .ok st => (partAt st ch).map (List.map fun m => (m.tieStart, m.tieStop))
  | .error _ => none

/-- Concrete run: lyric a then lyric ka on two C notes. -/
def cexRunA : Except Err CState :=
  interpContent 1
    [Command.noteCmd [NoteAttr.text ("a"), NoteAttr.step ("C")],
     Command.noteCmd [NoteAttr.text ("ka"), NoteAttr.step ("C")]] initState

/-- Concrete run: lyric ka then lyric a on two C notes. -/
def cexRunB : Except Err CState :=
  interpContent 1
    [Command.noteCmd [NoteAttr.text ("ka"), NoteAttr.step ("C")],
     Command.noteCmd [NoteAttr.text ("a"), NoteAttr.step ("C")]] initState

/-- Concrete run: six octave up commands from the initial state. -/
def cexRunUp6 : Except Err CState :=
  interpContent 1 (List.replicate 6 Command.octaveUpCmd) initState

/-- Concrete run: a single rest command from the initial state. -/
def cexRunRest : Except Err CState :=
  interpCommand 1 (Command.noteCmd [NoteAttr.rest]) initState

/-- State reached by the rest run. -/
def wRestSt : CState :=
  match cexRunRest with
  | .ok s => s
  | .error _ => initState

/-- Concrete run: one dotted C note from the initial state. -/
def wNoteRun : Except Err CState :=
  interpCommand 1 (Command.noteCmd [NoteAttr.step ("C"), NoteAttr.dot]) initState

/-- State reached by the dotted note run. -/
def wNoteSt : CState :=
  match wNoteRun with
  | .ok s => s
  | .error _ => initState

/-- Loop body used by the loop witness. -/
def wLoopBody : List Command := [Command.octaveCmd 7, Command.lengthCmd 8]

/-- Concrete run: the loop witness body repeated twice. -/
def wLoopRun : Except Err CState :=
  interpCommand 2 (Command.loopCmd wLoopBody 2) initState

/-- State reached by the loop run. -/
def wLoopSt : CState :=
  match wLoopRun with
  | .ok s => s
  | .error _ => initState

/-- Macro body used by the call witness. -/
def wMacroBody : List Command :=
  [Command.keyCmd 3, Command.lengthCmd 8, Command.octaveCmd 7,
   Command.tempoCmd 200, Command.octaveReverseCmd]

/-- State holding one macro M bound to the witness body. -/
def wMacroSt : CState := { initState with macros := [(("M"), wMacroBody)] }

/-- State reached by interpreting the witness macro body directly. -/
def wMacroBodySt : CState :=
  match runList (fun c s => interpCommand 1 c s) wMacroBody wMacroSt with
  | .ok s => s
  | .error _ => initState

/-- Concrete run: defining macro Foo from the initial state. -/
def wFooRun : Except Err CState :=
  interpCommand 1 (Command.defineCmd ("Foo") [Command.octaveUpCmd]) initState

/-- State reached after defining macro Foo. -/
def wFooSt : CState :=
  match wFooRun with
  | .ok s => s
  | .error _ => initState

/-- State reached after one C note carrying lyric ka. -/
def wKaSt : CState :=
  match interpCommand 1
      (Command.noteCmd [NoteAttr.text ("ka"), NoteAttr.step ("C")]) initState with
  | .ok s => s
  | .error _ => initState

/-- Concrete run: a C note carrying lyric a after the ka note. -/
def wTieRun : Except Err CState :=
  interpCommand 1 (Command.noteCmd [NoteAttr.text ("a"), NoteAttr.step ("C")]) wKaSt

/-- State reached by the tie run. -/
def wTieSt : CState :=
  match wTieRun with
  | .ok s => s
  | .error _ => initState

/-! Helper lemmas about list primitives used by the emission model. -/

theorem listGetDSetSelf {α : Type} :
    ∀ (l : List α) (i : Nat) (x d : α), i < l.length → (l.set i x).getD i d = x := by
  intro l
  induction l with
  | nil => intro i x d h; simp at h
  | cons a t ih =>
    intro i x d h
    cases i with
    | zero => rfl
    | succ j => exact ih j x d (Nat.lt_of_succ_lt_succ h)

theorem listGetDSetNe {α : Type} :
    ∀ (l : List α) (i j : Nat) (x d : α), i ≠ j →
      (l.set j x).getD i d = l.getD i d := by
  intro l
  induction l with
  | nil => intro i j x d _; rfl
  | cons a t ih =>
    intro i j x d hne
    cases j with
    | zero =>
      cases i with
      | zero => exact absurd rfl hne
      | succ i2 => rfl
    | succ j2 =>
      cases i with
      | zero => rfl
      | succ i2 => exact ih i2 j2 x d (fun he => hne (by rw [he]))

theorem listGetDSomeLt {α : Type} :
    ∀ (l : List (Option α)) (i : Nat) (x : α),
      l.getD i none = some x → i < l.length := by
  intro l
  induction l with
  | nil =>
    intro i x h
    cases i with
    | zero => exact Option.noConfusion h
    | succ j => exact Option.noConfusion h
  | cons a t ih =>
    intro i x h
    cases i with
    | zero => exact Nat.succ_pos _
    | succ j => exact Nat.succ_lt_succ (ih j x h)

theorem listGetDAppendLeft {α : Type} :
    ∀ (l t : List α) (i : Nat) (d : α), i < l.length →
      (l ++ t).getD i d = l.getD i d := by
  intro l
  induction l with
  | nil => intro t i d h; simp at h
  | cons a r ih =>
    intro t i d h
    cases i with
    | zero => rfl
    | succ j => exact ih t j d (Nat.lt_of_succ_lt_succ h)

theorem listGetLastConcat {α : Type} :
    ∀ (l : List α) (a : α), (l ++ [a]).getLast? = some a := by
  intro l a
  induction l with
  | nil => rfl
  | cons b t ih =>
    cases t with
    | nil => exact ih
    | cons x xs => exact ih

theorem modifyAtAppend {α : Type} :
    ∀ (l : List α) (i : Nat) (f : α → α) (t : List α), i < l.length →
      modifyAt (l ++ t) i f = modifyAt l i f ++ t := by
  intro l
  induction l with
  | nil => intro i f t h; simp at h
  | cons a r ih =>
    intro i f t h
    cases i with
    | zero => rfl
    | succ j =>
      show a :: modifyAt (r ++ t) j f = a :: (modifyAt r j f ++ t)
      rw [ih j f t (Nat.lt_of_succ_lt_succ h)]

theorem modifyAtGetD {α : Type} :
    ∀ (l : List α) (i : Nat) (f : α → α) (d : α), i < l.length →
      (modifyAt l i f).getD i d = f (l.getD i d) := by
  intro l
  induction l with
  | nil => intro i f d h; simp at h
  | cons a r ih =>
    intro i f d h
    cases i with
    | zero => rfl
    | succ j => exact ih j f d (Nat.lt_of_succ_lt_succ h)

theorem modifyAtLength {α : Type} :
    ∀ (l : List α) (i : Nat) (f : α → α), (modifyAt l i f).length = l.length := by
  intro l
  induction l with
  | nil => intro i f; rfl
  | cons a r ih =>
    intro i f
    cases i with
    | zero => rfl
    | succ j => exact congrArg Nat.succ (ih j f)

/-- Characterisation of the tie test as a conjunction. -/
theorem tieFlag_iff (st : CState) (text : String) :
    tieFlag st text = true ↔
      (st.previousNotations.isSome = true ∧ st.previousPitch.isSome = true ∧
        ∃ t, st.previousText = some t ∧ t ≠ "" ∧ pyEndsWith t text = true) := by
  unfold tieFlag
  cases hpn : st.previousNotations with
  | none => simp
  | some pr =>
    cases hpp : st.previousPitch with
    | none => simp
    | some pv =>
      cases hpt : st.previousText with
      | none => simp
      | some t =>
        by_cases ht : t = "" <;> simp [ht]

/-- Octave preservation of the loop runner. -/
theorem runLoop_octave (rec : Command → CState → Except Err CState)
    (body : List Command) :
    ∀ (n : Nat) (st st' : CState),
      runLoop rec body n st = .ok st' → st'.octave = st.octave := by
  intro n
  induction n with
  | zero =>
    intro st st' h
    simp only [runLoop] at h
    cases h
    rfl
  | succ k ih =>
    intro st st' h
    simp only [runLoop] at h
    cases hb : runList rec body st with
    | error e => rw [hb] at h; exact Except.noConfusion h
    | ok st1 =>
      rw [hb] at h
      exact ih { st1 with octave := st.octave } st' h

theorem boolIteFalse {α : Type} (a b : α) :
    (if (false : Bool) = true then a else b) = b := rfl

theorem boolIteTrue {α : Type} (a b : α) :
    (if (true : Bool) = true then a else b) = a := rfl

theorem setTieStart_eq (scores : List (Option (List Measure))) (ch idx : Nat)
    (p : List Measure) (hp : scores.getD ch none = some p) :
    setTieStart scores (some (ch, idx)) =
      scores.set ch (some (modifyAt p idx markTieStart)) := by
  have e : setTieStart scores (some (ch, idx)) =
      match scores.getD ch none with
      | none => scores
      | some part => scores.set ch (some (modifyAt part idx markTieStart)) := rfl
  rw [e, hp]

theorem lastMeasure_eq (st : CState) (ch : Nat) (p : List Measure)
    (hp : partAt st ch = some p) : lastMeasure st ch = p.getLast? := by
  unfold lastMeasure
  rw [hp]

/-- Shape of a successful non rest note command: the part of the
active channel existed, one measure with the computed time signature
and the computed tie stop flag was appended to it, and when the tie
was inferred the measure referenced by the previous notations field
received the tie start mark. -/
theorem noteCommand_nonrest_run (f : Nat) (attrs : List NoteAttr)
    (st st' : CState)
    (h : interpCommand (f + 1) (Command.noteCmd attrs) st = .ok st')
    (hr : (scanAttrs st.length attrs).rest = false)
    (hvalid : ∀ ch idx, st.previousNotations = some (ch, idx) →
        ∃ p, st.scores.getD ch none = some p ∧ idx < p.length) :
    ∃ m, lastMeasure st' st.channel = some m ∧
      m.beats = 2 * 2 ^ (scanAttrs st.length attrs).dot - 1 ∧
      m.beatType =
        (scanAttrs st.length attrs).length * 2 ^ (scanAttrs st.length attrs).dot ∧
      m.tieStop = tieFlag st (scanAttrs st.length attrs).text ∧
      (tieFlag st (scanAttrs st.length attrs).text = true →
        ∀ ch idx, st.previousNotations = some (ch, idx) →
          ∃ p', partAt st' ch = some p' ∧
            (p'.getD idx emptyMeasure).tieStart = true) := by
  simp only [interpCommand] at h
  unfold noteCommand at h
  rw [if_neg (by rw [hr]; exact Bool.false_ne_true)] at h
  cases hp : pitchProcess (scanAttrs st.length attrs) st with
  | error e => rw [hp] at h; exact Except.noConfusion h
  | ok p2 =>
    rw [hp] at h
    cases hpart : st.scores.getD st.channel none with
    | none => rw [hpart] at h; exact Except.noConfusion h
    | some part =>
      rw [hpart] at h
      have hch : st.channel < st.scores.length := listGetDSomeLt _ _ _ hpart
      cases htie : tieFlag st (scanAttrs st.length attrs).text with
      | false =>
        rw [htie] at h
        simp only [boolIteFalse] at h
        injection h with h2
        subst h2
        refine ⟨noteMeasure (scanAttrs st.length attrs) st.tempo p2 false,
          ?_, rfl, rfl, rfl, fun hc => Bool.noConfusion hc⟩
        refine (lastMeasure_eq _ st.channel _ ?_).trans (listGetLastConcat part _)
        exact listGetDSetSelf _ _ _ _ hch
      | true =>
        rw [htie] at h
        simp only [boolIteTrue, if_true] at h
        injection h with h2
        subst h2
        have hsome : st.previousNotations.isSome = true :=
          ((tieFlag_iff st _).mp htie).1
        cases hpn : st.previousNotations with
        | none => rw [hpn] at hsome; exact Bool.noConfusion hsome
        | some pr =>
          obtain ⟨ch0, idx0⟩ := pr
          obtain ⟨p, hpch, hidx⟩ := hvalid ch0 idx0 hpn
          by_cases hcheq : ch0 = st.channel
          · subst hcheq
            have hpp : p = part := by
              rw [hpch] at hpart
              exact Option.some.inj hpart
            subst hpp
            rw [setTieStart_eq _ _ _ _ (listGetDSetSelf _ _ _ _ hch),
              modifyAtAppend _ _ _ _ hidx]
            have hlen : st.channel <
                (st.scores.set st.channel
                  (some (p ++
                    [noteMeasure (scanAttrs st.length attrs) st.tempo p2 true]))).length := by
              rw [List.length_set]
              exact hch
            refine ⟨noteMeasure (scanAttrs st.length attrs) st.tempo p2 true,
              ?_, rfl, rfl, rfl, ?_⟩
            · refine (lastMeasure_eq _ st.channel _ ?_).trans
                (listGetLastConcat (modifyAt p idx0 markTieStart) _)
              exact listGetDSetSelf _ _ _ _ hlen
            · intro _ ch idx hx
              injection hx with hx2
              injection hx2 with ha hb
              subst ha
              subst hb
              refine ⟨modifyAt p idx0 markTieStart ++
                [noteMeasure (scanAttrs st.length attrs) st.tempo p2 true],
                listGetDSetSelf _ _ _ _ hlen, ?_⟩
              rw [listGetDAppendLeft _ _ _ _ (by rw [modifyAtLength]; exact hidx),
                modifyAtGetD _ _ _ _ hidx]
              rfl
          · rw [setTieStart_eq _ ch0 idx0 p
              (by rw [listGetDSetNe _ _ _ _ _ hcheq]; exact hpch)]
            have hch0 : ch0 < st.scores.length := listGetDSomeLt _ _ _ hpch
            refine ⟨noteMeasure (scanAttrs st.length attrs) st.tempo p2 true,
              ?_, rfl, rfl, rfl, ?_⟩
            · refine (lastMeasure_eq _ st.channel _ ?_).trans (listGetLastConcat part _)
              show (_ : List (Option (List Measure))).getD st.channel none = _
              rw [listGetDSetNe _ _ _ _ _ (fun he => hcheq he.symm)]
              exact listGetDSetSelf _ _ _ _ hch
            · intro _ ch idx hx
              injection hx with hx2
              injection hx2 with ha hb
              subst ha
              subst hb
              have hlen2 : ch0 <
                  (st.scores.set st.channel
                    (some (part ++
                      [noteMeasure (scanAttrs st.length attrs) st.tempo p2 true]))).length := by
                rw [List.length_set]
                exact hch0
              refine ⟨modifyAt p idx0 markTieStart,
                listGetDSetSelf _ _ _ _ hlen2, ?_⟩
              rw [modifyAtGetD _ _ _ _ hidx]
              rfl

/-- C9: every successful note or rest command appends a measure whose
time signature is beats equal to two times two to the dots minus one
and beat type equal to the effective length times two to the dots,
the effective length being the explicit length when given and the
channel default otherwise (both folded by the scanning loop). -/
theorem note_command_time_signature (f : Nat) (attrs : List NoteAttr)
    (st st' : CState)
    (h : interpCommand (f + 1) (Command.noteCmd attrs) st = .ok st')
    (hvalid : ∀ ch idx, st.previousNotations = some (ch, idx) →
        ∃ p, st.scores.getD ch none = some p ∧ idx < p.length) :
    ∃ m, lastMeasure st' st.channel = some m ∧
      m.beats = 2 * 2 ^ (scanAttrs st.length attrs).dot - 1 ∧
      m.beatType =
        (scanAttrs st.length attrs).length * 2 ^ (scanAttrs st.length attrs).dot := by
  cases hr : (scanAttrs st.length attrs).rest with
  | false =>
    obtain ⟨m, h1, h2, h3, _, _⟩ := noteCommand_nonrest_run f attrs st st' h hr hvalid
    exact ⟨m, h1, h2, h3⟩
  | true =>
    simp only [interpCommand] at h
    unfold noteCommand at h
    rw [if_pos hr] at h
    cases hpart : st.scores.getD st.channel none with
    | none => rw [hpart] at h; exact Except.noConfusion h
    | some part =>
      rw [hpart] at h
      injection h with h2
      subst h2
      have hch : st.channel < st.scores.length := listGetDSomeLt _ _ _ hpart
      refine ⟨restMeasure (scanAttrs st.length attrs) st.tempo, ?_, rfl, rfl⟩
      refine (lastMeasure_eq _ st.channel _ ?_).trans (listGetLastConcat part _)
      exact listGetDSetSelf _ _ _ _ hch

/-- Witness for C9: one dotted C note from the initial state gives
beats 3 and beat type 8, the claimed pair for one dot and length 4. -/
theorem note_command_time_signature_witness :
    interpCommand 1 (Command.noteCmd [NoteAttr.step ("C"), NoteAttr.dot]) initState =
      .ok wNoteSt ∧
    (∃ m, lastMeasure wNoteSt initState.channel = some m ∧
      m.beats = 2 * 2 ^ (scanAttrs initState.length [NoteAttr.step ("C"), NoteAttr.dot]).dot - 1 ∧
      m.beatType = (scanAttrs initState.length [NoteAttr.step ("C"), NoteAttr.dot]).length *
        2 ^ (scanAttrs initState.length [NoteAttr.step ("C"), NoteAttr.dot]).dot) ∧
    2 * 2 ^ (scanAttrs initState.length [NoteAttr.step ("C"), NoteAttr.dot]).dot - 1 = 3 ∧
    (scanAttrs initState.length [NoteAttr.step ("C"), NoteAttr.dot]).length *
      2 ^ (scanAttrs initState.length [NoteAttr.step ("C"), NoteAttr.dot]).dot = 8 :=
  ⟨rfl,
   note_command_time_signature 0 [NoteAttr.step ("C"), NoteAttr.dot] initState wNoteSt
     rfl (fun ch idx hx => Option.noConfusion hx),
   by decide, by decide⟩

/-- C1 counterexample: with lyric a then lyric ka the code produces no
tie, although the claim requires one there; with lyric ka then lyric
a the code produces a tie start on the first note and a tie stop on
the second, although the claim requires none there. -/
theorem tie_direction_cex :
    tiePairs cexRunA 0 = some [(false, false), (false, false)] ∧
    tiePairs cexRunB 0 = some [(true, false), (false, true)] := by
  decide

/-- C1 amended: for two adjacent non rest notes a tie is introduced
iff the previous note had a non empty notations element, a tracked
pitch, and non empty lyric text, and the current lyric text is a
suffix of (or equal to) the previous lyric text, the endswith test of
the source running on the previous text; on tie the previous note
receives the tie start and the current note the tie stop. -/
theorem note_command_tie (f : Nat) (attrs : List NoteAttr) (st st' : CState)
    (h : interpCommand (f + 1) (Command.noteCmd attrs) st = .ok st')
    (hr : (scanAttrs st.length attrs).rest = false)
    (hvalid : ∀ ch idx, st.previousNotations = some (ch, idx) →
        ∃ p, st.scores.getD ch none = some p ∧ idx < p.length) :
    ∃ m, lastMeasure st' st.channel = some m ∧
      (m.tieStop = true ↔
        (st.previousNotations.isSome = true ∧ st.previousPitch.isSome = true ∧
          ∃ t, st.previousText = some t ∧ t ≠ "" ∧
            pyEndsWith t (scanAttrs st.length attrs).text = true)) ∧
      (m.tieStop = true →
        ∀ ch idx, st.previousNotations = some (ch, idx) →
          ∃ p', partAt st' ch = some p' ∧
            (p'.getD idx emptyMeasure).tieStart = true) := by
  obtain ⟨m, h1, _, _, h4, h5⟩ := noteCommand_nonrest_run f attrs st st' h hr hvalid
  refine ⟨m, h1, ?_, ?_⟩
  · rw [h4]
    exact tieFlag_iff st _
  · intro hm
    exact h5 (h4.symm.trans hm)

/-- Witness for C1: the lyric ka then lyric a run, where the tie is
introduced, applied to the amended theorem. -/
theorem note_command_tie_witness :
    interpCommand 1 (Command.noteCmd [NoteAttr.text ("a"), NoteAttr.step ("C")]) wKaSt =
      .ok wTieSt ∧
    (scanAttrs wKaSt.length [NoteAttr.text ("a"), NoteAttr.step ("C")]).rest = false ∧
    (∃ m, lastMeasure wTieSt wKaSt.channel = some m ∧
      (m.tieStop = true ↔
        (wKaSt.previousNotations.isSome = true ∧ wKaSt.previousPitch.isSome = true ∧
          ∃ t, wKaSt.previousText = some t ∧ t ≠ "" ∧
            pyEndsWith t (scanAttrs wKaSt.length
              [NoteAttr.text ("a"), NoteAttr.step ("C")]).text = true)) ∧
      (m.tieStop = true →
        ∀ ch idx, wKaSt.previousNotations = some (ch, idx) →
          ∃ p', partAt wTieSt ch = some p' ∧
            (p'.getD idx emptyMeasure).tieStart = true)) ∧
    tiePairs wTieRun 0 = some [(true, false), (false, true)] :=
  ⟨rfl, by decide,
   note_command_tie 0 [NoteAttr.text ("a"), NoteAttr.step ("C")] wKaSt wTieSt rfl
     (by decide)
     (by
       intro ch idx hx
       injection hx with hx2
       injection hx2 with ha hb
       subst ha
       subst hb
       exact ⟨_, rfl, by decide⟩),
   by decide⟩

/-- C2: the channel select command never reinitialises the channel
state; the handler stores the channel and the local flag and then
invokes the private channel initialisation method without its
required positional channel argument, so every channel select command
raises TypeError and aborts the compilation. -/
theorem channel_command_raises (f : Nat) (c : Nat) (st : CState) :
    interpCommand (f + 1) (Command.channelCmd c) st = .error .typeErr := rfl

/-- C4: a loop command runs its body through the loop runner (count
iterations in order, each capturing the octave before the body and
restoring it immediately after the body), and when the loop succeeds
the resulting octave equals the octave before the loop; all other
state changes of the body thread through untouched. -/
theorem loop_command_octave_restored (f : Nat) (body : List Command) (n : Nat)
    (st st' : CState)
    (h : interpCommand (f + 1) (Command.loopCmd body n) st = .ok st') :
    st'.octave = st.octave ∧
    interpCommand (f + 1) (Command.loopCmd body n) st =
      runLoop (fun c s => interpCommand f c s) body n st :=
  ⟨runLoop_octave (fun c s => interpCommand f c s) body n st st' h, rfl⟩

/-- Witness for C4: looping a body that sets octave 7 and length 8
twice leaves the octave at its initial value 4 while the length
change persists. -/
theorem loop_command_octave_restored_witness :
    interpCommand 2 (Command.loopCmd wLoopBody 2) initState = .ok wLoopSt ∧
    wLoopSt.octave = initState.octave ∧ wLoopSt.length = 8 :=
  ⟨rfl, (loop_command_octave_restored 1 wLoopBody 2 initState wLoopSt rfl).1, rfl⟩

/-- C5: a call command on a defined macro interprets the stored body
from the current state and then restores exactly the length and the
octave; every other field of the resulting state is the one produced
by the body. -/
theorem call_command_restores_length_octave (f : Nat) (name : String)
    (body : List Command) (st st1 : CState)
    (hm : macroGet st.macros (pyUpper name) = some body)
    (hb : runList (fun c s => interpCommand f c s) body st = .ok st1) :
    interpCommand (f + 1) (Command.callCmd name) st =
      .ok { st1 with length := st.length, octave := st.octave } := by
  simp only [interpCommand, hm, hb]

/-- Witness for C5: calling macro M whose body changes key, length,
octave, tempo and the octave reverse flag restores only length and
octave; the key, tempo and octave reverse changes persist. -/
theorem call_command_restores_length_octave_witness :
    macroGet wMacroSt.macros (pyUpper ("m")) = some wMacroBody ∧
    runList (fun c s => interpCommand 1 c s) wMacroBody wMacroSt = .ok wMacroBodySt ∧
    interpCommand 2 (Command.callCmd ("m")) wMacroSt =
      .ok { wMacroBodySt with length := wMacroSt.length, octave := wMacroSt.octave } ∧
    wMacroBodySt.key = 3 ∧ wMacroBodySt.tempo = 200 ∧
    wMacroBodySt.octaveReverse = true ∧ wMacroBodySt.length = 8 ∧
    wMacroBodySt.octave = 7 :=
  ⟨rfl, rfl,
   call_command_restores_length_octave 1 ("m") wMacroBody wMacroSt wMacroBodySt rfl rfl,
   rfl, rfl, rfl, rfl, rfl⟩

/-- C6: macro names are compared after upper case normalisation, so a
call through any spelling with the same normalisation behaves
identically when the macro is defined; defining a name whose
normalisation is already present fails with DuplicateMacroError
carrying the unnormalised name and stores nothing; calling a name
whose normalisation is absent fails with UndefinedMacroError carrying
the unnormalised name. -/
theorem macro_name_semantics :
    (∀ (f : Nat) (n1 n2 : String) (st : CState),
        pyUpper n1 = pyUpper n2 →
        (macroGet st.macros (pyUpper n1)).isSome = true →
        interpCommand f (Command.callCmd n1) st =
          interpCommand f (Command.callCmd n2) st) ∧
    (∀ (f : Nat) (name : String) (body : List Command) (st : CState),
        (macroGet st.macros (pyUpper name)).isSome = true →
        interpCommand (f + 1) (Command.defineCmd name body) st =
          .error (.duplicateMacroErr name)) ∧
    (∀ (f : Nat) (name : String) (st : CState),
        macroGet st.macros (pyUpper name) = none →
        interpCommand (f + 1) (Command.callCmd name) st =
          .error (.undefinedMacroErr name)) := by
  refine ⟨?_, ?_, ?_⟩
  · intro f n1 n2 st hn hs
    cases f with
    | zero => rfl
    | succ k =>
      rw [Option.isSome_iff_exists] at hs
      obtain ⟨body, hb⟩ := hs
      rw [hn] at hb
      simp only [interpCommand]
      rw [hn, hb]
  · intro f name body st hs
    simp [interpCommand, hs]
  · intro f name st hn
    simp [interpCommand, hn]

/-- Witness for C6: after defining Foo, calling foo equals calling
FOO, redefining foo raises the duplicate error, and calling the
undefined bar raises the undefined error. -/
theorem macro_name_semantics_witness :
    pyUpper ("foo") = pyUpper ("FOO") ∧
    (macroGet wFooSt.macros (pyUpper ("foo"))).isSome = true ∧
    interpCommand 2 (Command.callCmd ("foo")) wFooSt =
      interpCommand 2 (Command.callCmd ("FOO")) wFooSt ∧
    interpCommand 1 (Command.defineCmd ("foo") []) wFooSt =
      .error (.duplicateMacroErr ("foo")) ∧
    macroGet initState.macros (pyUpper ("bar")) = none ∧
    interpCommand 1 (Command.callCmd ("bar")) initState =
      .error (.undefinedMacroErr ("bar")) :=
  ⟨by decide, by decide,
   macro_name_semantics.1 2 ("foo") ("FOO") wFooSt (by decide) (by decide),
   macro_name_semantics.2.1 0 ("foo") [] wFooSt (by decide),
   rfl,
   macro_name_semantics.2.2 0 ("bar") initState rfl⟩

/-- Helper for C7, the round trip checked over the Nat range. -/
theorem pitch_roundtrip_nat :
    ∀ n : Nat, n < 128 → (Pitch.fromValue (Int.ofNat n)).value = Int.ofNat n := by
  decide

/-- C7: for every value between 0 and 127, deriving the step,
alteration and octave triple through the value setter and reading the
value getter yields the value again. -/
theorem pitch_value_roundtrip (v : Int) (h0 : 0 ≤ v) (h1 : v ≤ 127) :
    (Pitch.fromValue v).value = v := by
  obtain ⟨n, rfl⟩ := Int.eq_ofNat_of_zero_le h0
  exact pitch_roundtrip_nat n (by omega)

/-- Witness for C7 at value 60, middle C. -/
theorem pitch_value_roundtrip_witness :
    (0 : Int) ≤ 60 ∧ (60 : Int) ≤ 127 ∧ (Pitch.fromValue 60).value = 60 :=
  ⟨by decide, by decide, pitch_value_roundtrip 60 (by decide) (by decide)⟩

/-- C8 counterexample: the input minus one is negative and congruent
to 11, yet the stored alteration equals the input minus one, refuting
that the stored alteration never equals such an input. -/
theorem alteration_setter_cex :
    ((-1 : Int) < 0) ∧ ((-1 : Int) % 12 = 11) ∧
    ((Pitch.fromValue 0).withAlter (-1)).alter = -1 := by
  decide

/-- C8 amended: the alter setter stores the argument mod 12 and then
subtracts 12 when the argument was negative; the stored alteration
differs from the input for negative inputs below minus eleven that
are congruent to a value in 1 to 11. -/
theorem alteration_setter_norm (p : Pitch) (a : Int) :
    ((p.withAlter a).alter = if a < 0 then a % 12 - 12 else a % 12) ∧
    (a < -11 → a % 12 ≠ 0 → (p.withAlter a).alter ≠ a) := by
  constructor
  · rfl
  · intro h1 h2
    have e : (p.withAlter a).alter = if a < 0 then a % 12 - 12 else a % 12 := rfl
    rw [e, if_pos (by omega : a < 0)]
    omega

/-- Witness for C8 at input minus thirteen, stored as minus one. -/
theorem alteration_setter_norm_witness :
    ((-13 : Int) < -11) ∧ ((-13 : Int) % 12 ≠ 0) ∧
    (((Pitch.fromValue 0).withAlter (-13)).alter =
      if (-13 : Int) < 0 then (-13 : Int) % 12 - 12 else (-13 : Int) % 12) ∧
    ((Pitch.fromValue 0).withAlter (-13)).alter ≠ -13 :=
  ⟨by decide, by decide, (alteration_setter_norm (Pitch.fromValue 0) (-13)).1,
   (alteration_setter_norm (Pitch.fromValue 0) (-13)).2 (by decide) (by decide)⟩

/-- C10 counterexample: six octave up commands from the initial state
leave the channel octave at 10, outside the claimed range. -/
theorem octave_invariant_cex :
    octaveAfter cexRunUp6 = some 10 ∧ ¬((10 : Int) ≤ 9) := by
  decide

/-- C10 amended: octave up and octave down change the channel octave
by exactly one, in the direction flipped by the octave reverse flag
and with no clamping, so the channel octave can leave the range minus
one to nine; the octave command stores its argument directly (the
grammar only produces values in the range); an octave is clamped into
the range only when stored into a Pitch. -/
theorem octave_up_down_no_clamp (f : Nat) (st : CState) :
    (interpCommand (f + 1) Command.octaveUpCmd st =
      .ok { st with octave :=
        if st.octaveReverse then st.octave - 1 else st.octave + 1 }) ∧
    (interpCommand (f + 1) Command.octaveDownCmd st =
      .ok { st with octave :=
        if st.octaveReverse then st.octave + 1 else st.octave - 1 }) ∧
    (∀ o : Int, interpCommand (f + 1) (Command.octaveCmd o) st =
      .ok { st with octave := o }) ∧
    (∀ (p : Pitch) (o : Int),
      -1 ≤ (p.withOctave o).octave ∧ (p.withOctave o).octave ≤ 9) := by
  refine ⟨?_, ?_, fun o => rfl, fun p o => ?_⟩
  · cases h : st.octaveReverse <;> simp [interpCommand, h]
  · cases h : st.octaveReverse <;> simp [interpCommand, h]
  · have e : (p.withOctave o).octave = min (max o (-1)) 9 := rfl
    rw [e]
    constructor <;> omega

/-- C3 counterexample: after compiling a rest from the initial state
the previous pitch field holds the scanned Pitch object, not the
empty value the claim asserts for all three tie tracking fields. -/
theorem rest_prev_pitch_cex :
    prevPitchAfter cexRunRest = some (Pitch.fromValue 0) ∧
    some (Pitch.fromValue 0) ≠ (none : Option Pitch) := by
  decide

/-- C3 amended: compiling a rest clears the previous notations
reference and the previous lyric text, but sets the previous pitch to
the Pitch object scanned for the rest command instead of clearing
it. -/
theorem rest_tie_tracking_update (f : Nat) (attrs : List NoteAttr)
    (st st' : CState)
    (h : interpCommand (f + 1) (Command.noteCmd attrs) st = .ok st')
    (hr : (scanAttrs st.length attrs).rest = true) :
    st'.previousNotations = none ∧ st'.previousText = none ∧
    st'.previousPitch = some (scanAttrs st.length attrs).pitch := by
  simp only [interpCommand] at h
  unfold noteCommand at h
  rw [if_pos hr] at h
  cases hpart : st.scores.getD st.channel none with
  | none => rw [hpart] at h; exact Except.noConfusion h
  | some part =>
    rw [hpart] at h
    injection h with h2
    subst h2
    exact ⟨rfl, rfl, rfl⟩

/-- Witness for C3: the concrete rest run. -/
theorem rest_tie_tracking_update_witness :
    interpCommand 1 (Command.noteCmd [NoteAttr.rest]) initState = .ok wRestSt ∧
    (scanAttrs initState.length [NoteAttr.rest]).rest = true ∧
    (wRestSt.previousNotations = none ∧ wRestSt.previousText = none ∧
      wRestSt.previousPitch = some (scanAttrs initState.length [NoteAttr.rest]).pitch) :=
  ⟨rfl, by decide,
   rest_tie_tracking_update 0 [NoteAttr.rest] initState wRestSt rfl (by decide)⟩

end Mml2MusicXml
